import Mathlib

/-
  Verification development for the PhilGEPS multi-category scraper.

  Shallow embedding of the pure data-transformation parts of the repository:
    - data_cleaner.py        (PhilGEPSDataCleaner.clean_currency / clean_date)
    - final_working_scraper.py (_is_junk_text, _is_position_title,
                                _parse_contact_blob, collect_detail_links
                                pagination loop, the CLI dedup loop)
    - multi_category_scraper.py (MultiCategoryScraper.scrape_category,
                                 merge_csv_files, _sort_merged_data)

  Python strings are modelled as List Char (code points, which is exactly
  Python's model of str); machine floats are modelled by exact rationals.
  The regular expressions used by the code are compiled by hand into a small
  combinator language whose candidate lists reproduce the leftmost-match,
  greedy-with-backtracking semantics of the Python re module for the
  star-free, character-class-based patterns that occur in this code base.
-/

namespace PhilGEPS

/-- ASCII whitespace as recognised by Python str.strip and by the ASCII part
of the regex class backslash-s: space, tab, newline, carriage return,
vertical tab, form feed. -/
def isPyWs (c : Char) : Bool :=
  c = ' ' || c = '\t' || c = '\n' || c = '\x0d' || c = '\x0b' || c = '\x0c'

/-- Python str.strip (whitespace from both ends). -/
def pyStrip (cs : List Char) : List Char :=
  ((cs.dropWhile isPyWs).reverse.dropWhile isPyWs).reverse

/-- Word characters of the regex class backslash-w (ASCII fragment):
letters, digits and underscore. -/
def isWordChar (c : Char) : Bool :=
  c.isAlphanum || c = '_'

/-- Numeric value of a decimal digit character. -/
def digitVal (c : Char) : Nat := c.toNat - '0'.toNat

/-- Python int() on a string of decimal digits. -/
def natOfDigits (cs : List Char) : Nat :=
  cs.foldl (fun n c => 10 * n + digitVal c) 0

/-- The two-character, zero-padded decimal rendering of n, as produced by a
Python format spec 02d for the values 0..99 that occur in this code. -/
def two (n : Nat) : List Char :=
  if n < 10 then ['0', Char.ofNat ('0'.toNat + n)]
  else [Char.ofNat ('0'.toNat + n / 10 % 10), Char.ofNat ('0'.toNat + n % 10)]

/-- Python string comparison: lexicographic on code points. -/
def pyStrLt : List Char → List Char → Bool
  | [], [] => false
  | [], _ :: _ => true
  | _ :: _, [] => false
  | a :: as, b :: bs =>
    if a.toNat < b.toNat then true
    else if b.toNat < a.toNat then false
    else pyStrLt as bs

/-- Python float() restricted to the digits-and-dots strings that the code
feeds it (the code always pre-filters its input to digits, commas and dots
and removes the commas). Accepts digits, an optional single dot and a
fractional digit run, requiring at least one digit somewhere; everything
else is a ValueError, i.e. none. -/
def parseFloat (cs : List Char) : Option ℚ :=
  let ip := cs.takeWhile Char.isDigit
  let rest := cs.dropWhile Char.isDigit
  if rest.isEmpty then
    if ip.isEmpty then none else some (mkRat (natOfDigits ip) 1)
  else if rest.head? = some '.' then
    let fp := rest.tail
    if fp.all Char.isDigit then
      if ip.isEmpty && fp.isEmpty then none
      else some (mkRat (natOfDigits (ip ++ fp)) (10 ^ fp.length))
    else none
  else none

/-- Python substring test (the in operator on str). -/
def containsSub (pat : List Char) : List Char → Bool
  | [] => pat.isPrefixOf []
  | c :: cs => pat.isPrefixOf (c :: cs) || containsSub pat cs

/-
  Regex combinators.

  A matcher consumes from a fixed position: applied to the input suffix it
  returns the list of possible remainders in the priority order in which a
  backtracking engine would produce them (greedy alternatives first). An
  empty list means the pattern cannot match at this position. All patterns
  appearing in the scraper are sequences, alternations, option operators and
  greedy bounded repetitions of single-character classes, for which this
  candidate-list semantics is exact.
-/

/-- A matcher: input suffix to candidate remainders in priority order. -/
def Matcher : Type := List Char → List (List Char)

/-- Literal string. -/
def reLit (pat : List Char) : Matcher := fun cs =>
  if pat.isPrefixOf cs then [cs.drop pat.length] else []

/-- Literal string, case-insensitive (re.IGNORECASE on ASCII letters). -/
def reLitCI (pat : List Char) : Matcher := fun cs =>
  if (cs.take pat.length).map Char.toLower = pat.map Char.toLower then
    [cs.drop pat.length]
  else []

/-- Greedy bounded repetition of a character class: candidate remainders
after consuming k matching characters, for k from the largest feasible value
down to lo. hi = none means unbounded. -/
def reCls (p : Char → Bool) (lo : Nat) (hi : Option Nat) : Matcher := fun cs =>
  let run := (cs.takeWhile p).length
  let top := min run (hi.getD run)
  if top < lo then []
  else (List.range (top + 1 - lo)).map (fun i => cs.drop (top - i))

/-- Sequencing: backtracks through the candidates of the first matcher. -/
def reSeq (m1 m2 : Matcher) : Matcher := fun cs =>
  (m1 cs).flatMap m2

/-- Alternation, first alternative preferred. -/
def reAlt (m1 m2 : Matcher) : Matcher := fun cs =>
  m1 cs ++ m2 cs

/-- Greedy option operator: matching is preferred over skipping. -/
def reOpt (m : Matcher) : Matcher := fun cs =>
  m cs ++ [cs]

/-- Greedy single-character option, the question-mark on a class. -/
def chOpt (p : Char → Bool) : Matcher := reCls p 0 (some 1)

/-- Match at the current position: the first candidate (highest priority)
wins; returns the consumed part and the remainder. -/
def matchHere (m : Matcher) (cs : List Char) : Option (List Char × List Char) :=
  match m cs with
  | [] => none
  | r :: _ => some (cs.take (cs.length - r.length), r)

/-- re.search: leftmost match; returns (text before, matched text, rest). -/
def reSearch (m : Matcher) : List Char → Option (List Char × List Char × List Char)
  | [] =>
    match matchHere m [] with
    | some (mt, r) => some ([], mt, r)
    | none => none
  | c :: cs =>
    match matchHere m (c :: cs) with
    | some (mt, r) => some ([], mt, r)
    | none =>
      match reSearch m cs with
      | some (pre, mt, r) => some (c :: pre, mt, r)
      | none => none

/-- Worker for re.findall with explicit fuel (every pattern in this code
consumes at least one character per match, so fuel = length + 1 suffices;
an empty match advances by one character, like the re module). -/
def reFindAllGo (m : Matcher) : Nat → List Char → List (List Char)
  | 0, _ => []
  | fuel + 1, cs =>
    match reSearch m cs with
    | none => []
    | some (_, mt, r) =>
      match mt with
      | [] =>
        mt :: (match r with
               | [] => []
               | _ :: r2 => reFindAllGo m fuel r2)
      | _ => mt :: reFindAllGo m fuel r

/-- re.findall: all non-overlapping matches, left to right. -/
def reFindAll (m : Matcher) (cs : List Char) : List (List Char) :=
  reFindAllGo m (cs.length + 1) cs

/-- Worker for re.sub with the empty replacement, with explicit fuel. -/
def reSubAllGo (m : Matcher) : Nat → List Char → List Char
  | 0, cs => cs
  | fuel + 1, cs =>
    match reSearch m cs with
    | none => cs
    | some (pre, mt, r) =>
      match mt with
      | [] =>
        pre ++ (match r with
                | [] => []
                | c :: r2 => c :: reSubAllGo m fuel r2)
      | _ => pre ++ reSubAllGo m fuel r

/-- re.sub(pattern, empty string, text): delete every match. -/
def reSubAll (m : Matcher) (cs : List Char) : List Char :=
  reSubAllGo m (cs.length + 1) cs

/-- Suffix-closure of a matcher: every candidate remainder is a suffix of
the input. Every combinator in this development preserves it; it ties a
match back to the input it was found in. -/
def SuffClosed (m : Matcher) : Prop :=
  ∀ cs r, r ∈ m cs → r.IsSuffix cs

/-- Python str.replace(old, new-empty-string): delete every occurrence of a
non-empty pattern, scanning left to right, non-overlapping. Fuel as above. -/
def removeAllOcc (pat : List Char) : Nat → List Char → List Char
  | 0, cs => cs
  | _ + 1, [] => []
  | fuel + 1, c :: cs =>
    if pat ≠ [] && pat.isPrefixOf (c :: cs) then
      removeAllOcc pat fuel ((c :: cs).drop pat.length)
    else
      c :: removeAllOcc pat fuel cs

/-
  Embedding of data_cleaner.py (class PhilGEPSDataCleaner).
-/

namespace DataCleaner

/-- The character class of digits and commas from the currency regexes. -/
def isDigitComma (c : Char) : Bool := c.isDigit || c = ','

/-- The group of the currency regexes: one or more digits or commas, an
optional dot, then any number of digits. -/
def currencyNumRe : Matcher :=
  reSeq (reCls isDigitComma 1 none)
    (reSeq (reOpt (reLit ['.'])) (reCls Char.isDigit 0 none))

/-- The full prefixed currency regex: the marker PHP or the peso sign,
optional whitespace, then the numeric group. -/
def currencyMarkRe : Matcher :=
  reSeq (reAlt (reLit "PHP".data) (reLit ['₱']))
    (reSeq (reCls isPyWs 0 none) currencyNumRe)

/-- Group 1 of the prefixed currency match: the matched text minus the
marker and the whitespace after it. -/
def markGroup (mt : List Char) : List Char :=
  (if "PHP".data.isPrefixOf mt then mt.drop 3 else mt.drop 1).dropWhile isPyWs

/-- PhilGEPSDataCleaner.clean_currency. Search for the prefixed form first;
on a match, strip commas from the group and convert (a conversion error
returns none). Otherwise fall back to a bare numeric group; if nothing
matches or converts, none. -/
def clean_currency (s : String) : Option ℚ :=
  if s.data.isEmpty then none
  else
    match reSearch currencyMarkRe s.data with
    | some (_, mt, _) => parseFloat ((markGroup mt).filter (fun c => c ≠ ','))
    | none =>
      match reSearch currencyNumRe s.data with
      | some (_, mt, _) => parseFloat (mt.filter (fun c => c ≠ ','))
      | none => none

/-- The trailing-time regex of clean_date: whitespace, one or two digits, a
colon, two digits, an optional colon-seconds group, optional whitespace and
an optional AM or PM (case-insensitive). -/
def timeRe : Matcher :=
  reSeq (reCls isPyWs 1 none)
    (reSeq (reCls Char.isDigit 1 (some 2))
      (reSeq (reLit [':'])
        (reSeq (reCls Char.isDigit 2 (some 2))
          (reSeq (reOpt (reSeq (reLit [':']) (reCls Char.isDigit 2 (some 2))))
            (reSeq (reCls isPyWs 0 none)
              (reOpt (reAlt (reLitCI "AM".data) (reLitCI "PM".data))))))))

/-- The maximal leading digit run and what follows it. -/
def digitRun (cs : List Char) : List Char × List Char :=
  (cs.takeWhile Char.isDigit, cs.dropWhile Char.isDigit)

/-- Full-string parser for the anchored patterns d-or-dd sep d-or-dd sep
digit-group with a length condition on the last group. Because the
separator is not a digit, an anchored regex with greedy one-or-two-digit
groups matches exactly when the maximal digit runs have the right lengths. -/
def parse3 (sep : Char) (len3ok : Nat → Bool) (cs : List Char) :
    Option (List Char × List Char × List Char) :=
  let (g1, r1) := digitRun cs
  if g1.length < 1 || 2 < g1.length then none
  else
    match r1 with
    | s1 :: r2 =>
      if s1 = sep then
        let (g2, r3) := digitRun r2
        if g2.length < 1 || 2 < g2.length then none
        else
          match r3 with
          | s2 :: r4 =>
            if s2 = sep then
              let (g3, r5) := digitRun r4
              if len3ok g3.length && r5.isEmpty then some (g1, g2, g3) else none
            else none
          | [] => none
      else none
    | [] => none

/-- Full-string parser for the anchored pattern four digits, dash, one or
two digits, dash, one or two digits (the already-canonical form). -/
def parseYmd (cs : List Char) : Option (List Char × List Char × List Char) :=
  let (g1, r1) := digitRun cs
  if g1.length = 4 then
    match r1 with
    | s1 :: r2 =>
      if s1 = '-' then
        let (g2, r3) := digitRun r2
        if 1 ≤ g2.length && g2.length ≤ 2 then
          match r3 with
          | s2 :: r4 =>
            if s2 = '-' then
              let (g3, r5) := digitRun r4
              if 1 ≤ g3.length && g3.length ≤ 2 && r5.isEmpty then some (g1, g2, g3)
              else none
            else none
          | [] => none
        else none
      else none
    | [] => none
  else none

/-- Python str.zfill(2): left-pad with zeros to width two. -/
def zfill2 (g : List Char) : List Char :=
  if g.length < 2 then '0' :: g else g

/-- Gregorian leap year, as implemented by datetime. -/
def isLeapYear (y : Nat) : Bool :=
  (y % 4 = 0 && y % 100 ≠ 0) || y % 400 = 0

/-- Length of a month, as implemented by datetime. -/
def daysInMonth (y m : Nat) : Nat :=
  if m = 2 then (if isLeapYear y then 29 else 28)
  else if m = 4 || m = 6 || m = 9 || m = 11 then 30
  else 31

/-- Validity of a calendar date for datetime.strptime with format
year-month-day: datetime accepts years 1..9999 and real calendar dates. -/
def validYmd (y m d : Nat) : Bool :=
  1 ≤ y && y ≤ 9999 && 1 ≤ m && m ≤ 12 && 1 ≤ d && d ≤ daysInMonth y m

/-- The local helper _try(year, month, day) of clean_date: format the
candidate as year-month-day (the year taken verbatim from its four-digit
group, month and day zero-padded to two) and keep it only if strptime
accepts it. -/
def tryYmd (ystr : List Char) (m d : Nat) : Option (List Char) :=
  if validYmd (natOfDigits ystr) m d then
    some (ystr ++ '-' :: two m ++ '-' :: two d)
  else none

/-- The body of PhilGEPSDataCleaner.clean_date on the character list of the
input (after the emptiness test of the wrapper): strip, delete any
time-of-day component, strip again, then try the three unambiguous patterns
in order (a pattern whose formatted result fails strptime falls through to
the next), and finally the smart ambiguous slash pattern. -/
def cleanDateCore (cs0 : List Char) : Option (List Char) :=
  let cs1 := pyStrip cs0
  let cs := pyStrip (reSubAll timeRe cs1)
  let r1 : Option (List Char) :=
    match parseYmd cs with
    | some (g1, g2, g3) =>
      if validYmd (natOfDigits g1) (natOfDigits g2) (natOfDigits g3) then
        some (g1 ++ '-' :: zfill2 g2 ++ '-' :: zfill2 g3)
      else none
    | none => none
  match r1 with
  | some s => some s
  | none =>
    let r2 : Option (List Char) :=
      match parse3 '-' (fun n => n = 4) cs with
      | some (g1, g2, g3) =>
        if validYmd (natOfDigits g3) (natOfDigits g2) (natOfDigits g1) then
          some (g3 ++ '-' :: zfill2 g2 ++ '-' :: zfill2 g1)
        else none
      | none => none
    match r2 with
    | some s => some s
    | none =>
      let r3 : Option (List Char) :=
        match parse3 '/' (fun n => n = 2) cs with
        | some (g1, g2, g3) =>
          let ystr := (if natOfDigits g3 < 50 then ['2', '0'] else ['1', '9']) ++ g3
          if validYmd (natOfDigits ystr) (natOfDigits g2) (natOfDigits g1) then
            some (ystr ++ '-' :: zfill2 g2 ++ '-' :: zfill2 g1)
          else none
        | none => none
      match r3 with
      | some s => some s
      | none =>
        match parse3 '/' (fun n => n = 4) cs with
        | some (g1, g2, g3) =>
          let a := natOfDigits g1
          let b := natOfDigits g2
          if 12 < a then tryYmd g3 b a
          else if 12 < b then tryYmd g3 a b
          else
            match tryYmd g3 b a with
            | some s => some s
            | none => tryYmd g3 a b
        | none => none

/-- PhilGEPSDataCleaner.clean_date: none on the empty string, otherwise the
core pipeline; an unparseable input yields none. -/
def clean_date (s : String) : Option String :=
  if s.data.isEmpty then none
  else (cleanDateCore s.data).map String.mk

/-- Reference reading of the ambiguous slash form, written from the spec:
for a date A/B/YYYY with a four-digit year, if A is greater than twelve it
must be the day (day-month-year); otherwise if B is greater than twelve it
must be the day (month-day-year); if both are at most twelve, default to
day-month-year and, only if that produces an invalid calendar date, retry
as month-day-year; a valid reading is rendered as year-month-day. -/
def specSlashRead (a b : Nat) (ystr : List Char) : Option (List Char) :=
  let tryRead : Nat → Nat → Option (List Char) := fun m d =>
    if validYmd (natOfDigits ystr) m d then
      some (ystr ++ '-' :: two m ++ '-' :: two d)
    else none
  if 12 < a then tryRead b a
  else if 12 < b then tryRead a b
  else
    match tryRead b a with
    | some s => some s
    | none => tryRead a b

end DataCleaner

/-
  Embedding of final_working_scraper.py.
-/

namespace Scraper

/-- The _POSITION_KEYWORDS table (a frozenset in the source; duplicate
entries are kept verbatim, membership is unaffected). -/
def position_keywords : List String :=
  ["bac", "secretariat", "chairperson", "chairman", "vice-chairman",
   "vice chairman", "member", "officer", "director", "head", "chief",
   "manager", "supervisor", "coordinator", "administrator", "secretary",
   "clerk", "specialist", "accountant", "treasurer", "auditor",
   "engineer", "technician", "procurement", "admin", "administrative",
   "supply", "executive", "senior", "junior", "assistant", "associate",
   "consultant", "employee", "staff", "personnel", "representative",
   "general services", "budget", "finance", "legal", "school", "office",
   "planning", "development", "assessor", "engineering", "accounting",
   "treasury", "social", "welfare", "health", "agriculture",
   "mayor", "vice-mayor", "councilor", "captain", "capitan", "punong",
   "kagawad", "governor", "board", "member", "sk", "chairman",
   "barangay", "municipal", "city", "provincial", "gov", "chairwoman", "brgy",
   "treasurer", "BARANGAY", "CAPTAIN", "PUNONG", "KAGAWAD", "GOVERNOR",
   "MAYOR", "VICE-MAYOR", "COUNCILOR",
   "principal", "teacher", "faculty", "instructor", "master",
   "custodian", "property", "guidance", "librarian", "tic",
   "aide", "operator", "buyer", "canvasser", "inspector", "driver",
   "utility", "messenger", "watchman", "guard", "cook",
   "charge", "treasure",
   "ao", "sao", "aso", "ada", "adas", "lso", "eco", "cgdh", "pgdh",
   "mpdc", "mdrrmo", "pdrrmo", "cdrrmo", "oic", "deped", "dswd", "dpwh",
   "rspnco", "psms"]

/-- The _ADDRESS_KEYWORDS table. -/
def address_keywords : List String :=
  ["street", "st.", "avenue", "ave.", "road", "rd.", "highway",
   "barangay", "brgy.", "brgy", "bgy.", "bgy",
   "poblacion", "purok", "sitio",
   "city", "municipality", "province", "region",
   "philippines", "pilipinas",
   "building", "bldg.", "bldg", "floor", "flr.",
   "compound", "village", "subdivision", "district",
   "zip", "postal"]

/-- Lowercasing of a character list (Python str.lower on ASCII). -/
def lowerL (cs : List Char) : List Char := cs.map Char.toLower

/-- _is_junk_text: boilerplate detector for scraped cell text. -/
def is_junk_text (s : String) : Bool :=
  if s.data.isEmpty then false
  else
    let v := lowerL s.data
    if containsSub "philgeps team is not responsible".data v then true
    else if containsSub "printable version".data v && s.data.length < 30 then true
    else
      let kw : List String := ["procuring entity", "title", "area of delivery",
                               "solicitation number"]
      decide (3 ≤ kw.countP (fun k => containsSub k.data v))

/-- Python str.split() with no argument: split on whitespace runs and drop
the empty pieces (implemented by splitting at every whitespace character
and filtering, which is equivalent). -/
def wordsOf (cs : List Char) : List (List Char) :=
  (cs.foldr (fun c acc =>
    if isPyWs c then [] :: acc
    else
      match acc with
      | [] => [[c]]
      | w :: ws => (c :: w) :: ws) [[]]).filter (fun w => !w.isEmpty)

/-- The word set of _is_position_title: lowercase the candidate, replace
every character that is neither a word character nor whitespace by a space,
and split on whitespace. -/
def titleWords (t : List Char) : List (List Char) :=
  wordsOf ((lowerL t).map (fun c => if isWordChar c || isPyWs c then c else ' '))

/-- _is_position_title: keyword-only matching. Empty and over-long
candidates are rejected; a word in the address table vetoes; a word in the
position table accepts. -/
def is_position_title (s : String) : Bool :=
  if s.data.isEmpty then false
  else
    let t := pyStrip s.data
    if 80 < t.length then false
    else
      let ws := titleWords t
      if address_keywords.any (fun k => ws.contains k.data) then false
      else if position_keywords.any (fun k => ws.contains k.data) then true
      else false

/-- The email regex of _parse_contact_blob: one or more word-dot-dash
characters, an at sign, one or more word-dot-dash characters, a dot, one or
more word characters. -/
def isWordDotDash (c : Char) : Bool := isWordChar c || c = '.' || c = '-'

/-- The email pattern as a matcher. -/
def emailRe : Matcher :=
  reSeq (reCls isWordDotDash 1 none)
    (reSeq (reLit ['@'])
      (reSeq (reCls isWordDotDash 1 none)
        (reSeq (reLit ['.']) (reCls isWordChar 1 none))))

/-- The separator class of the phone regex: dash, space or dot. -/
def isSepChar (c : Char) : Bool := c = '-' || c = ' ' || c = '.'

/-- The phone pattern as a matcher: an optional prefix (optional plus-63,
optional zero, one to three digits, optional separator), then two runs of
three or more digits joined by an optional separator. -/
def phoneRe : Matcher :=
  reSeq
    (reOpt (reSeq (reOpt (reSeq (chOpt (fun c => c = '+')) (reLit "63".data)))
      (reSeq (chOpt (fun c => c = '0'))
        (reSeq (reCls Char.isDigit 1 (some 3)) (chOpt isSepChar)))))
    (reSeq (reCls Char.isDigit 3 none)
      (reSeq (chOpt isSepChar) (reCls Char.isDigit 3 none)))

/-- Python str.split(sep) for a single-character separator: split at every
occurrence, keeping empty pieces. -/
def splitChar (sep : Char) (cs : List Char) : List (List Char) :=
  cs.foldr (fun c acc =>
    if c = sep then [] :: acc
    else
      match acc with
      | [] => [[c]]
      | p :: ps => (c :: p) :: ps) [[]]

/-- Strip every piece and drop the empty ones (the line comprehension of
_parse_contact_blob). -/
def stripPieces (ls : List (List Char)) : List (List Char) :=
  (ls.map pyStrip).filter (fun l => !l.isEmpty)

/-- Joining with a separator (Python str.join). -/
def joinWith (sep : List Char) : List (List Char) → List Char
  | [] => []
  | [p] => p
  | p :: ps => p ++ sep ++ joinWith sep ps

/-- The phone-line skip test of the classification loops: a line is skipped
when a phone was extracted and the stripped line equals the stripped phone. -/
def skipPhone (phoneO : Option (List Char)) (ln : List Char) : Bool :=
  match phoneO with
  | some p => pyStrip ln = pyStrip p
  | none => false

/-- The classification loop of _parse_contact_blob for the case where the
first line was taken as a name: walk the remaining lines carrying the
current position and address accumulator; a line is skipped when it is the
phone line, becomes the position when no position is set AND the address
accumulator is still empty AND it passes _is_position_title, and goes to
the address otherwise. -/
def classifyRestGo (phoneO : Option (List Char)) :
    Option (List Char) → List (List Char) → List (List Char) →
    Option (List Char) × List (List Char)
  | pos, addr, [] => (pos, addr)
  | pos, addr, ln :: rest =>
    if skipPhone phoneO ln then classifyRestGo phoneO pos addr rest
    else if pos.isNone && addr.isEmpty && is_position_title (String.mk ln) then
      classifyRestGo phoneO (some ln) addr rest
    else classifyRestGo phoneO pos (addr ++ [ln]) rest

/-- Entry point of the name-branch classification loop. -/
def classifyRest (phoneO : Option (List Char)) (lines : List (List Char)) :
    Option (List Char) × List (List Char) :=
  classifyRestGo phoneO none [] lines

/-- The 5-tuple returned by _parse_contact_blob. -/
structure Contact where
  name : Option String
  position : Option String
  address : Option String
  email : Option String
  phone : Option String
deriving DecidableEq

/-- _parse_contact_blob: split one unstructured contact blob into
(name, position, address, email, phone). -/
def parse_contact_blob (s : String) : Contact :=
  if s.data.isEmpty || is_junk_text s then ⟨none, none, none, none, none⟩
  else
    let text1 := pyStrip (removeAllOcc "Printable Version".data
                            (s.data.length + 1) s.data)
    let emailO : Option (List Char) :=
      match reFindAll emailRe text1 with
      | [] => none
      | e :: _ => some e
    let text2 :=
      match emailO with
      | some e => removeAllOcc e (text1.length + 1) text1
      | none => text1
    let phones := reFindAll phoneRe text2
    let validPhones := phones.filter (fun p => 7 ≤ (p.filter Char.isDigit).length)
    let phoneO : Option (List Char) :=
      if validPhones.isEmpty then none else some (joinWith " / ".data validPhones)
    let lines0 := stripPieces (splitChar '\n' text2)
    let lines :=
      match lines0 with
      | [l] =>
        if containsSub [','] l then
          let parts := stripPieces (splitChar ',' l)
          if 2 ≤ parts.length then parts else lines0
        else lines0
      | _ => lines0
    let emailS := emailO.map String.mk
    let phoneS := phoneO.map String.mk
    match lines with
    | [] => ⟨none, none, none, emailS, phoneS⟩
    | first :: rest =>
      let joinAddr : List (List Char) → Option String := fun parts =>
        if parts.isEmpty then none else some (String.mk (joinWith ", ".data parts))
      if is_position_title (String.mk first) then
        let addr := rest.filter (fun ln => !skipPhone phoneO ln)
        ⟨none, some (String.mk first), joinAddr addr, emailS, phoneS⟩
      else
        let (pos, addrParts) := classifyRest phoneO rest
        ⟨some (String.mk first), pos.map String.mk, joinAddr addrParts, emailS, phoneS⟩

/-
  The pagination loop of collect_detail_links, over an abstract browser.
  Network and DOM state are modelled by an environment assigning to every
  iteration the page view the loop observes: the detail links present, and
  the state of the next control. Everything the loop branches on appears as
  a field.
-/

/-- What one iteration of the pagination loop observes. -/
structure PageView where
  pageLinks : List String
  nextFound : Bool
  attrCheckOk : Bool
  nextDisabled : Bool
  nextVisible : Bool
  clickOk : Bool

/-- The inner accumulation over the anchors of one page: keep each href not
yet seen, in page order (the running-set dedup of the loop body). -/
def addNewGo (seen acc : List String) : List String → List String
  | [] => acc
  | u :: us =>
    if (seen ++ acc).contains u then addNewGo seen acc us
    else addNewGo seen (acc ++ [u]) us

/-- The while loop of collect_detail_links: fuel is the number of remaining
iterations allowed by the page cap (the loop guard page_count < max_pages),
pageCount the number of iterations already run, links the accumulator.
Returns the collected links and the total number of iterations executed. -/
def collectLoop (env : Nat → PageView) : Nat → Nat → List String → List String × Nat
  | 0, pageCount, links => (links, pageCount)
  | fuel + 1, pageCount, links =>
    let pv := env pageCount
    let newLinks := addNewGo links [] pv.pageLinks
    let links2 := links ++ newLinks
    let pageCount1 := pageCount + 1
    if newLinks.isEmpty && 1 < pageCount1 then (links2, pageCount1)
    else if !pv.nextFound then (links2, pageCount1)
    else if !pv.attrCheckOk then (links2, pageCount1)
    else if pv.nextDisabled then (links2, pageCount1)
    else if !pv.nextVisible then (links2, pageCount1)
    else if !pv.clickOk then (links2, pageCount1)
    else collectLoop env fuel pageCount1 links2

/-- The keep-first dedup of the final seen-out loop of collect_detail_links
(and of the CLI dedup in spirit): keep the first occurrence of each value. -/
def dedupKeepFirst : List String → List String → List String
  | _, [] => []
  | seen, u :: us =>
    if seen.contains u then dedupKeepFirst seen us
    else u :: dedupKeepFirst (u :: seen) us

/-- collect_detail_links (navigation already succeeded): run the pagination
loop with the page cap of 100, then pass the collected links through the
final keep-first dedup. Returns the links and the number of loop iterations
executed. -/
def collect_detail_links (env : Nat → PageView) : List String × Nat :=
  let (links, pages) := collectLoop env 100 0 []
  (dedupKeepFirst [] links, pages)

end Scraper

/-
  Embedding of multi_category_scraper.py (class MultiCategoryScraper).
-/

namespace Multi

/-- One CSV row as read back by csv.DictReader in merge_csv_files. Only the
fields the merge and sort code touches are named; payload stands for the
remaining columns, so that distinct rows stay distinct. A missing or null
value reads as the empty string, which is equivalent for every truthiness
and default-value test the code performs. -/
structure Row where
  refID : String
  area_of_delivery : String
  abc_php : String
  payload : String
deriving DecidableEq

/-- The dedup scan of merge_csv_files over the concatenated rows of all
category files (category iteration order, then row order): a row is kept
when its refID is truthy (non-empty) and not yet seen; kept rows are
returned in order together with the final seen set (as a list). -/
def mergeScan : List Row → List String → List Row × List String
  | [], seen => ([], seen)
  | r :: rs, seen =>
    if r.refID ≠ "" && !seen.contains r.refID then
      let (out, fin) := mergeScan rs (r.refID :: seen)
      (r :: out, fin)
    else mergeScan rs seen

/-- Python str.upper on ASCII letters. -/
def pyUpper (cs : List Char) : List Char := cs.map Char.toUpper

/-- First sort-key component of _sort_merged_data: the stripped area of
delivery, the literal ZZZ when that is empty, uppercased. -/
def areaKey (r : Row) : List Char :=
  let a := pyStrip r.area_of_delivery.data
  pyUpper (if a.isEmpty then "ZZZ".data else a)

/-- Second sort-key ingredient of _sort_merged_data: keep only digits and
dots of the raw budget string, convert to float, any failure (or the empty
string) giving zero. -/
def abcAmount (r : Row) : ℚ :=
  (parseFloat (r.abc_php.data.filter (fun c => c.isDigit || c = '.'))).getD 0

/-- The comparison realised by the sort key (area.upper(), -abc_amount)
under Python tuple ordering: strictly smaller first component, or equal
first components and less-or-equal negated amounts. -/
def rowLe (r1 r2 : Row) : Prop :=
  pyStrLt (areaKey r1) (areaKey r2) = true ∨
    (areaKey r1 = areaKey r2 ∧ -abcAmount r1 ≤ -abcAmount r2)

instance : DecidableRel rowLe := fun _ _ =>
  inferInstanceAs (Decidable (_ ∨ _))

/-- _sort_merged_data: Python sorted with the key above. Modelled by
insertion sort with the same total preorder; the claims under verification
do not depend on the order of key ties, so the stability difference between
insertion sort and timsort is immaterial. -/
def sort_merged_data (rows : List Row) : List Row :=
  List.insertionSort rowLe rows

/-- merge_csv_files, as a pure function of the per-category row lists that
exist on disk, in category order. Returns the merged (deduplicated and
sorted) rows and the duplicates_removed value the code computes, namely
len(all_rows) - len(seen_refids) as a Python int. -/
def merge_csv_files (files : List (List Row)) : List Row × ℤ :=
  let (allRows, seen) := mergeScan files.flatten []
  let sorted := sort_merged_data allRows
  (sorted, (sorted.length : ℤ) - (seen.length : ℤ))

/-- The dedup loop of the final_working_scraper command-line entry point
(lines 634-642): a row with a truthy, already-seen refID is dropped; every
other row — including rows with a null or empty refID — is appended. -/
def mainDedup : List Row → List String → List Row
  | [], _ => []
  | r :: rs, seen =>
    if r.refID ≠ "" && seen.contains r.refID then mainDedup rs seen
    else if r.refID ≠ "" then r :: mainDedup rs (r.refID :: seen)
    else r :: mainDedup rs seen

/-
  scrape_category, over an abstract listing crawler and detail parser.
-/

/-- Outcome of one collect_detail_links call inside the attempt loop:
either the call raises, or it returns a (possibly empty) link list. -/
inductive CrawlResult where
  | excn (msg : String)
  | links (ls : List String)
deriving DecidableEq

/-- The attempt loop of scrape_category. Arguments mirror the Python state:
crawl gives the result of the listing crawl on each attempt index, parse
the per-URL detail result (a None result is not appended; the concurrent
append order does not matter for the returned triple), limit the optional
link cap. The loop counter is (attempt so far, attempts remaining); the
result is the (success, count, error) triple paired with the number of
crawl attempts actually performed. An empty link list returns immediately;
only an exception falls into the retry path (with its fixed backoff
sleep). -/
def scrapeLoop (name : String) (crawl : Nat → CrawlResult)
    (parse : String → Option String) (limit : Nat) :
    Nat → Nat → String → (Bool × Nat × String) × Nat
  | attempt, 0, lastError => ((false, 0, lastError), attempt)
  | attempt, remaining + 1, _ =>
    match crawl attempt with
    | CrawlResult.excn m =>
      scrapeLoop name crawl parse limit (attempt + 1) remaining
        ("Error scraping " ++ name ++ ": " ++ m)
    | CrawlResult.links ls =>
      if ls.isEmpty then ((false, 0, "No links found for " ++ name), attempt + 1)
      else
        let ls2 := if 0 < limit then ls.take limit else ls
        let rows := ls2.filterMap parse
        if rows.isEmpty then
          ((false, 0, "No data extracted for " ++ name), attempt + 1)
        else ((true, rows.length, ""), attempt + 1)

/-- MultiCategoryScraper.scrape_category: run the attempt loop for
retry_count + 1 attempts starting from an empty last error. -/
def scrape_category (name : String) (crawl : Nat → CrawlResult)
    (parse : String → Option String) (limit retry_count : Nat) :
    (Bool × Nat × String) × Nat :=
  scrapeLoop name crawl parse limit 0 (retry_count + 1) ""

end Multi

/-
  General lemmas about the embedding.
-/

theorem flatMap_nil_of {α β : Type} {l : List α} {f : α → List β}
    (h : ∀ x ∈ l, f x = []) : l.flatMap f = [] := by
  induction l with
  | nil => rfl
  | cons a l ih =>
    rw [List.flatMap_cons, h a (List.mem_cons_self a l), List.nil_append]
    exact ih fun x hx => h x (List.mem_cons_of_mem _ hx)

theorem takeWhile_all_append {p : Char → Bool} {l : List Char} {x : Char}
    (r : List Char) (hl : ∀ c ∈ l, p c = true) (hx : p x = false) :
    (l ++ x :: r).takeWhile p = l := by
  induction l with
  | nil => simp [List.takeWhile_cons, hx]
  | cons c l ih =>
    have hc := hl c (List.mem_cons_self c l)
    simp only [List.cons_append, List.takeWhile_cons, hc, if_true]
    rw [ih fun d hd => hl d (List.mem_cons_of_mem _ hd)]

theorem dropWhile_all_append {p : Char → Bool} {l : List Char} {x : Char}
    (r : List Char) (hl : ∀ c ∈ l, p c = true) (hx : p x = false) :
    (l ++ x :: r).dropWhile p = x :: r := by
  induction l with
  | nil => simp [List.dropWhile_cons, hx]
  | cons c l ih =>
    have hc := hl c (List.mem_cons_self c l)
    simp only [List.cons_append, List.dropWhile_cons, hc, if_true]
    exact ih fun d hd => hl d (List.mem_cons_of_mem _ hd)

theorem dropWhile_none {p : Char → Bool} {l : List Char}
    (h : ∀ c ∈ l, p c = false) : l.dropWhile p = l := by
  induction l with
  | nil => rfl
  | cons c l ih =>
    simp only [List.dropWhile_cons, h c (List.mem_cons_self c l)]
    simp [ih fun d hd => h d (List.mem_cons_of_mem _ hd)]

theorem pyStrip_eq_self {cs : List Char} (h : ∀ c ∈ cs, isPyWs c = false) :
    pyStrip cs = cs := by
  unfold pyStrip
  rw [dropWhile_none h, dropWhile_none (fun c hc => h c (List.mem_reverse.mp hc)),
    List.reverse_reverse]

/-
  Lemmas for the claims about scrape_category (C1).
-/

theorem scrapeLoop_all_excn (name : String) (crawl : Nat → Multi.CrawlResult)
    (parse : String → Option String) (limit : Nat) (msgs : Nat → String)
    (h : ∀ i, crawl i = Multi.CrawlResult.excn (msgs i)) :
    ∀ remaining attempt lastErr,
      Multi.scrapeLoop name crawl parse limit attempt (remaining + 1) lastErr
        = ((false, 0, "Error scraping " ++ name ++ ": " ++ msgs (attempt + remaining)),
           attempt + remaining + 1) := by
  intro remaining
  induction remaining with
  | zero =>
    intro attempt lastErr
    simp only [Multi.scrapeLoop, h attempt, Nat.add_zero]
  | succ rem ih =>
    intro attempt lastErr
    have step : Multi.scrapeLoop name crawl parse limit attempt (rem + 1 + 1) lastErr
        = Multi.scrapeLoop name crawl parse limit (attempt + 1) (rem + 1)
            ("Error scraping " ++ name ++ ": " ++ msgs attempt) := by
      simp only [Multi.scrapeLoop, h attempt]
    rw [step, ih (attempt + 1)]
    have harith : attempt + 1 + rem = attempt + (rem + 1) := by omega
    rw [harith]

/-
  Lemmas for the merge pipeline (C2, C3, C10).
-/

theorem mergeScan_length_eq (rs : List Multi.Row) :
    ∀ seen, (Multi.mergeScan rs seen).1.length + seen.length
      = (Multi.mergeScan rs seen).2.length := by
  induction rs with
  | nil => intro seen; simp [Multi.mergeScan]
  | cons r rs ih =>
    intro seen
    simp only [Multi.mergeScan]
    by_cases hk : (r.refID ≠ "" && !seen.contains r.refID) = true
    · rcases he : Multi.mergeScan rs (r.refID :: seen) with ⟨out, fin⟩
      have h2 := ih (r.refID :: seen)
      rw [he] at h2
      simp only [hk, if_true, he]
      simp only [List.length_cons] at h2 ⊢
      omega
    · simp only [hk, if_false]
      exact ih seen

theorem mergeScan_mem_refID {r : Multi.Row} (rs : List Multi.Row) :
    ∀ seen, r ∈ (Multi.mergeScan rs seen).1 → r.refID ≠ "" := by
  induction rs with
  | nil => intro seen hm; simp [Multi.mergeScan] at hm
  | cons q rs ih =>
    intro seen hm
    simp only [Multi.mergeScan] at hm
    split at hm
    · rename_i hk
      rcases List.mem_cons.mp hm with hm1 | hm2
      · subst hm1
        have hk2 := (Bool.and_eq_true _ _).mp hk
        simpa using hk2.1
      · exact ih (q.refID :: seen) hm2
    · exact ih seen hm

theorem mainDedup_keeps_empty_refID {r : Multi.Row} (h2 : r.refID = "") :
    ∀ rows seen, r ∈ rows → r ∈ Multi.mainDedup rows seen := by
  intro rows
  induction rows with
  | nil => intro seen h1; cases h1
  | cons q rows ih =>
    intro seen h1
    rcases List.mem_cons.mp h1 with hq | hq
    · subst hq
      simp only [Multi.mainDedup]
      split


      · rename_i hc
        exfalso
        rw [h2] at hc
        simp at hc
      · split
        · rename_i hc
          exfalso
          rw [h2] at hc
          simp at hc
        · exact List.mem_cons_self r _
    · simp only [Multi.mainDedup]
      split
      · exact ih seen hq
      · split
        · exact List.mem_cons_of_mem _ (ih (q.refID :: seen) hq)
        · exact List.mem_cons_of_mem _ (ih seen hq)

/-
  Lemmas for the pagination loop (C9).
-/

theorem collectLoop_pages_le (env : Nat → Scraper.PageView) :
    ∀ fuel pageCount links,
      (Scraper.collectLoop env fuel pageCount links).2 ≤ pageCount + fuel := by
  intro fuel
  induction fuel with
  | zero => intro pageCount links; simp [Scraper.collectLoop]
  | succ fuel ih =>
    intro pageCount links
    simp only [Scraper.collectLoop]
    split
    · omega
    · split
      · omega
      · split
        · omega
        · split
          · omega
          · split
            · omega
            · split
              · omega
              · have := ih (pageCount + 1)
                  (links ++ Scraper.addNewGo links [] (env pageCount).pageLinks)
                omega

/-- C9: for every category page environment, the pagination loop of
collect_detail_links executes at most the configured maximum page count
(100) of iterations — and, being a total function of the environment,
terminates — even if the next control never reports disabled and new links
keep appearing on every page. -/
theorem collect_detail_links_page_cap (env : Nat → Scraper.PageView) :
    (Scraper.collect_detail_links env).2 ≤ 100 := by
  have h := collectLoop_pages_le env 100 0 []
  rcases hcl : Scraper.collectLoop env 100 0 [] with ⟨l, p⟩
  rw [hcl] at h
  simpa [Scraper.collect_detail_links, hcl] using h

/-- Witness for C9 at a concrete environment in which the next control is
never disabled and every page presents a fresh link. -/
theorem collect_detail_links_page_cap_witness :
    (Scraper.collect_detail_links
        (fun n => ⟨[toString n], true, true, false, true, true⟩)).2 ≤ 100 :=
  collect_detail_links_page_cap (fun n => ⟨[toString n], true, true, false, true, true⟩)

/-- C1 counterexample: with retry_count = 2 (so two retries remain), a
listing crawl returning an empty link list makes scrape_category return a
failed result after a single crawl attempt — it does not wait and retry, so
the failure is not returned only after all retries are exhausted (that
would take 2 + 1 attempts, but only 1 is performed). -/
theorem scrape_category_no_retry_on_empty_cx :
    Multi.scrape_category "Printing Services" (fun _ => Multi.CrawlResult.links [])
        (fun _ => none) 0 2
      = ((false, 0, "No links found for Printing Services"), 1)
    ∧ (1 : Nat) ≠ 2 + 1 := by
  exact ⟨rfl, by decide⟩

/-- C1 amended: when the listing crawl returns an empty link list,
scrape_category returns a failed result with the reason string immediately,
after exactly one crawl attempt and regardless of how many retries remain;
the fixed-backoff retry path applies only to attempts that raise an
exception, and when every attempt raises, the failure is reported only
after retry_count + 1 attempts with the last error as the reason. -/
theorem scrape_category_empty_links_fail_fast :
    (∀ (name : String) (crawl : Nat → Multi.CrawlResult)
        (parse : String → Option String) (limit retry_count : Nat),
      crawl 0 = Multi.CrawlResult.links [] →
      Multi.scrape_category name crawl parse limit retry_count
        = ((false, 0, "No links found for " ++ name), 1)) ∧
    (∀ (name : String) (crawl : Nat → Multi.CrawlResult)
        (parse : String → Option String) (limit retry_count : Nat)
        (msgs : Nat → String),
      (∀ i, crawl i = Multi.CrawlResult.excn (msgs i)) →
      Multi.scrape_category name crawl parse limit retry_count
        = ((false, 0, "Error scraping " ++ name ++ ": " ++ msgs retry_count),
           retry_count + 1)) := by
  constructor
  · intro name crawl parse limit retry_count h0
    simp only [Multi.scrape_category, Multi.scrapeLoop, h0, List.isEmpty_nil, if_true]
  · intro name crawl parse limit retry_count msgs h
    have hx := scrapeLoop_all_excn name crawl parse limit msgs h retry_count 0 ""
    simpa [Multi.scrape_category] using hx

/-- Witness for C1 amended at concrete inputs. -/
theorem scrape_category_empty_links_fail_fast_witness :
    Multi.scrape_category "X" (fun _ => Multi.CrawlResult.links [])
        (fun _ => none) 0 5
      = ((false, 0, "No links found for X"), 1) ∧
    Multi.scrape_category "X" (fun _ => Multi.CrawlResult.excn "boom")
        (fun _ => none) 0 2
      = ((false, 0, "Error scraping X: boom"), 3) :=
  ⟨scrape_category_empty_links_fail_fast.1 "X" (fun _ => Multi.CrawlResult.links [])
      (fun _ => none) 0 5 rfl,
   scrape_category_empty_links_fail_fast.2 "X" (fun _ => Multi.CrawlResult.excn "boom")
      (fun _ => none) 0 2 (fun _ => "boom") (fun _ => rfl)⟩

/-- C2 (code bug): the duplicates_removed value of merge_csv_files is
len(all_rows) - len(seen_refids), which is always zero because exactly one
row is kept per seen reference ID; on the failing input — two category
files sharing reference ID 100 — the code reports 0 duplicates removed,
although 2 rows were read and 1 unique row was kept, so the documented
formula (total rows read minus unique rows kept) gives 1. -/
theorem merge_duplicates_removed_always_zero :
    (∀ files : List (List Multi.Row), (Multi.merge_csv_files files).2 = 0) ∧
    (Multi.merge_csv_files [[⟨"100", "A", "1", "x"⟩], [⟨"100", "B", "2", "y"⟩]]).2 = 0 ∧
    (Multi.merge_csv_files [[⟨"100", "A", "1", "x"⟩], [⟨"100", "B", "2", "y"⟩]]).1.length = 1 ∧
    ([[(⟨"100", "A", "1", "x"⟩ : Multi.Row)],
      [(⟨"100", "B", "2", "y"⟩ : Multi.Row)]] : List (List Multi.Row)).flatten.length = 2 := by
  refine ⟨?_, by decide, by decide, by decide⟩
  intro files
  unfold Multi.merge_csv_files
  rcases he : Multi.mergeScan files.flatten [] with ⟨allRows, seen⟩
  have h := mergeScan_length_eq files.flatten []
  rw [he] at h
  simp only [List.length_nil, Nat.add_zero] at h
  simp only [Multi.sort_merged_data, List.length_insertionSort]
  omega

/-- C10: every row of the merged output carries a non-empty reference ID —
the merge scan of merge_csv_files silently drops any input row whose refID
is null or empty (besides dropping later duplicates) — while the dedup loop
of the final_working_scraper command line retains rows without a reference
ID, so such rows survive in per-category raw outputs yet never reach the
merged (hence cleaned) outputs. -/
theorem merged_rows_nonnull_refid :
    (∀ (files : List (List Multi.Row)) (r : Multi.Row),
        r ∈ (Multi.merge_csv_files files).1 → r.refID ≠ "") ∧
    (∀ (rows : List Multi.Row) (r : Multi.Row),
        r.refID = "" → r ∈ rows → r ∈ Multi.mainDedup rows []) := by
  constructor
  · intro files r hm
    unfold Multi.merge_csv_files at hm
    rcases he : Multi.mergeScan files.flatten [] with ⟨allRows, seen⟩
    rw [he] at hm
    simp only at hm
    have hperm := List.perm_insertionSort Multi.rowLe allRows
    have hmem : r ∈ allRows :=
      hperm.mem_iff.mp (by simpa [Multi.sort_merged_data] using hm)
    exact mergeScan_mem_refID files.flatten [] (by rw [he]; exact hmem)
  · intro rows r h2 h1
    exact mainDedup_keeps_empty_refID h2 rows [] h1

/-- Witness for C10 at concrete inputs: a row with refID 7 that survives a
merge indeed has a non-empty refID, and a row with an empty refID given to
the CLI dedup loop is retained by it. -/
theorem merged_rows_nonnull_refid_witness :
    ("7" : String) ≠ "" ∧
    (⟨"", "A", "1", "x"⟩ : Multi.Row) ∈ Multi.mainDedup [⟨"", "A", "1", "x"⟩] [] :=
  ⟨merged_rows_nonnull_refid.1 [[⟨"", "A", "1", "x"⟩], [⟨"7", "B", "2", "y"⟩]]
      ⟨"7", "B", "2", "y"⟩ (by decide),
   merged_rows_nonnull_refid.2 [⟨"", "A", "1", "x"⟩] ⟨"", "A", "1", "x"⟩ rfl (by decide)⟩

/-
  First-occurrence dedup lemmas for C3.
-/

theorem mergeScan_filter_seen (id : String) (rs : List Multi.Row) :
    ∀ seen, seen.contains id = true →
      (Multi.mergeScan rs seen).1.filter (fun r => r.refID == id) = [] := by
  induction rs with
  | nil => intro seen hs; simp [Multi.mergeScan]
  | cons q rs ih =>
    intro seen hs
    simp only [Multi.mergeScan]
    split
    · rename_i hk
      have hk2 := (Bool.and_eq_true _ _).mp hk
      have hqid : (q.refID == id) = false := by
        rcases hbe : q.refID == id with _ | _
        · rfl
        · exfalso
          have : q.refID = id := by simpa using hbe
          rw [this] at hk2
          rw [hs] at hk2
          simpa using hk2.2
      simp only [List.filter_cons, hqid]
      simp only [Bool.false_eq_true, if_false]
      have hmem : id ∈ seen := by simpa using hs
      refine ih (q.refID :: seen) ?_
      simpa using Or.inr hmem
    · exact ih seen hs

theorem mergeScan_filter_first (id : String) (hid : id ≠ "") (rs : List Multi.Row) :
    ∀ seen, seen.contains id = false →
      (Multi.mergeScan rs seen).1.filter (fun r => r.refID == id)
        = (rs.filter (fun r => r.refID == id)).take 1 := by
  induction rs with
  | nil => intro seen hs; simp [Multi.mergeScan]
  | cons q rs ih =>
    intro seen hs
    rcases hbe : q.refID == id with _ | _
    · -- head row has a different refID
      simp only [Multi.mergeScan]
      split
      · rename_i hk
        simp only [List.filter_cons, hbe, Bool.false_eq_true, if_false]
        refine ih (q.refID :: seen) ?_
        simp only [List.contains_cons, Bool.or_eq_false_iff]
        constructor
        · rcases hbq : id == q.refID with _ | _
          · rfl
          · exfalso
            have : id = q.refID := by simpa using hbq
            rw [← this] at hbe
            simp at hbe
        · exact hs
      · simp only [List.filter_cons, hbe, Bool.false_eq_true, if_false]
        exact ih seen hs
    · -- head row carries the searched refID: it is kept and is the first
      have hqid : q.refID = id := by simpa using hbe
      have hnotmem : id ∉ seen := by
        intro hmem
        have hcont : seen.contains id = true := by simpa using hmem
        rw [hcont] at hs
        cases hs
      have hcond : (decide (q.refID ≠ "") && !seen.contains q.refID) = true := by
        rw [hqid]
        simp [hid, hnotmem]
      simp only [Multi.mergeScan]
      split
      · simp only [List.filter_cons, hbe, if_true]
        rw [mergeScan_filter_seen id rs (q.refID :: seen)
          (by simpa using Or.inl hqid.symm)]
        simp [List.take]
      · rename_i hk
        exact absurd hcond hk

/-- C3: for every collection of per-category outputs and every non-empty
reference ID appearing in the rows of two or more categories, the merged
output contains exactly one row with that ID, and that row is the first
occurrence by category iteration order and then row order within the
category (the head of the filtered concatenation). -/
theorem merge_keeps_first_occurrence :
    ∀ (files : List (List Multi.Row)) (id : String), id ≠ "" →
      2 ≤ files.countP (fun f => f.any (fun r => r.refID == id)) →
      ((Multi.merge_csv_files files).1.filter (fun r => r.refID == id)).length = 1 ∧
      (Multi.merge_csv_files files).1.filter (fun r => r.refID == id)
        = (files.flatten.filter (fun r => r.refID == id)).take 1 := by
  intro files id hid hcount
  have hpos : 0 < files.countP (fun f => f.any (fun r => r.refID == id)) := by omega
  obtain ⟨f, hf, hfany⟩ := List.countP_pos_iff.mp hpos
  obtain ⟨r0, hr0f, hr0⟩ := List.any_eq_true.mp hfany
  have hr0flat : r0 ∈ files.flatten := List.mem_flatten.mpr ⟨f, hf, hr0f⟩
  have hfilter_ne : files.flatten.filter (fun r => r.refID == id) ≠ [] := by
    intro hnil
    have hmem : r0 ∈ files.flatten.filter (fun r => r.refID == id) :=
      List.mem_filter.mpr ⟨hr0flat, hr0⟩
    rw [hnil] at hmem
    cases hmem
  obtain ⟨x, xs, hx⟩ : ∃ x xs,
      files.flatten.filter (fun r => r.refID == id) = x :: xs := by
    cases hflt : files.flatten.filter (fun r => r.refID == id) with
    | nil => exact absurd hflt hfilter_ne
    | cons x xs => exact ⟨x, xs, rfl⟩
  unfold Multi.merge_csv_files
  rcases he : Multi.mergeScan files.flatten [] with ⟨allRows, seen⟩
  simp only
  have hscan := mergeScan_filter_first id hid files.flatten [] rfl
  rw [he] at hscan
  have hperm : (Multi.sort_merged_data allRows).Perm allRows :=
    List.perm_insertionSort _ _
  have hpf := hperm.filter (fun r => r.refID == id)
  rw [hscan, hx] at hpf
  simp only [List.take_succ_cons, List.take_zero] at hpf
  have heq := List.perm_singleton.mp hpf
  refine ⟨by rw [heq]; rfl, ?_⟩
  rw [heq, hx]
  simp [List.take]

/-- Witness for C3: reference ID 9 appears in two categories; the merged
output keeps exactly the first of the two rows. -/
theorem merge_keeps_first_occurrence_witness :
    ((Multi.merge_csv_files [[⟨"9", "A", "1", "x"⟩], [⟨"9", "B", "2", "y"⟩]]).1.filter
        (fun r => r.refID == "9")).length = 1 ∧
    (Multi.merge_csv_files [[⟨"9", "A", "1", "x"⟩],
        [⟨"9", "B", "2", "y"⟩]]).1.filter (fun r => r.refID == "9")
      = (([[⟨"9", "A", "1", "x"⟩], [⟨"9", "B", "2", "y"⟩]] :
          List (List Multi.Row)).flatten.filter (fun r => r.refID == "9")).take 1 :=
  merge_keeps_first_occurrence [[⟨"9", "A", "1", "x"⟩], [⟨"9", "B", "2", "y"⟩]] "9"
    (by decide) (by decide)

/-
  Order lemmas for the sort key of _sort_merged_data (C4).
-/

theorem char_toNat_inj {a b : Char} (h : a.toNat = b.toNat) : a = b := by
  have h2 := congrArg Char.ofNat h
  rwa [Char.ofNat_toNat, Char.ofNat_toNat] at h2

theorem pyStrLt_trans : ∀ (as bs cs : List Char),
    pyStrLt as bs = true → pyStrLt bs cs = true → pyStrLt as cs = true := by
  intro as
  induction as with
  | nil =>
    intro bs cs h1 h2
    cases bs with
    | nil => simp [pyStrLt] at h1
    | cons b bs =>
      cases cs with
      | nil => simp [pyStrLt] at h2
      | cons c cs => simp [pyStrLt]
  | cons a as ih =>
    intro bs cs h1 h2
    cases bs with
    | nil => simp [pyStrLt] at h1
    | cons b bs =>
      cases cs with
      | nil => simp [pyStrLt] at h2
      | cons c cs =>
        simp only [pyStrLt] at h1 h2 ⊢
        rcases Nat.lt_trichotomy a.toNat b.toNat with hab | hab | hab
        · rcases Nat.lt_trichotomy b.toNat c.toNat with hbc | hbc | hbc
          · rw [if_pos (Nat.lt_trans hab hbc)]
          · rw [if_pos (hbc ▸ hab)]
          · rw [if_neg (Nat.lt_asymm hbc), if_pos hbc] at h2
            cases h2
        · rw [if_neg (by omega), if_neg (by omega)] at h1
          rcases Nat.lt_trichotomy b.toNat c.toNat with hbc | hbc | hbc
          · rw [if_pos (by omega)]
          · have h2r : pyStrLt bs cs = true := by
              rw [if_neg (by omega), if_neg (by omega)] at h2
              exact h2
            rw [if_neg (by omega), if_neg (by omega)]
            exact ih bs cs h1 h2r
          · rw [if_neg (by omega), if_pos hbc] at h2
            cases h2
        · rw [if_neg (by omega), if_pos hab] at h1
          cases h1

theorem pyStrLt_eq_of_both_false : ∀ (as bs : List Char),
    pyStrLt as bs = false → pyStrLt bs as = false → as = bs := by
  intro as
  induction as with
  | nil =>
    intro bs h1 h2
    cases bs with
    | nil => rfl
    | cons b bs => simp [pyStrLt] at h1
  | cons a as ih =>
    intro bs h1 h2
    cases bs with
    | nil => simp [pyStrLt] at h2
    | cons b bs =>
      simp only [pyStrLt] at h1 h2
      rcases Nat.lt_trichotomy a.toNat b.toNat with h | h | h
      · rw [if_pos h] at h1
        cases h1
      · rw [if_neg (by omega), if_neg (by omega)] at h1
        rw [if_neg (by omega), if_neg (by omega)] at h2
        rw [char_toNat_inj h, ih bs h1 h2]
      · rw [if_pos h] at h2
        cases h2

theorem rowLe_total : ∀ r1 r2 : Multi.Row, Multi.rowLe r1 r2 ∨ Multi.rowLe r2 r1 := by
  intro r1 r2
  rcases h1 : pyStrLt (Multi.areaKey r1) (Multi.areaKey r2) with _ | _
  · rcases h2 : pyStrLt (Multi.areaKey r2) (Multi.areaKey r1) with _ | _
    · have heq := pyStrLt_eq_of_both_false _ _ h1 h2
      rcases le_total (-(Multi.abcAmount r1)) (-(Multi.abcAmount r2)) with hle | hle
      · exact Or.inl (Or.inr ⟨heq, hle⟩)
      · exact Or.inr (Or.inr ⟨heq.symm, hle⟩)
    · exact Or.inr (Or.inl h2)
  · exact Or.inl (Or.inl h1)

theorem rowLe_trans : ∀ r1 r2 r3 : Multi.Row,
    Multi.rowLe r1 r2 → Multi.rowLe r2 r3 → Multi.rowLe r1 r3 := by
  intro r1 r2 r3 h12 h23
  rcases h12 with hlt12 | ⟨heq12, hle12⟩
  · rcases h23 with hlt23 | ⟨heq23, hle23⟩
    · exact Or.inl (pyStrLt_trans _ _ _ hlt12 hlt23)
    · exact Or.inl (heq23 ▸ hlt12)
  · rcases h23 with hlt23 | ⟨heq23, hle23⟩
    · exact Or.inl (heq12 ▸ hlt23)
    · exact Or.inr ⟨heq12.trans heq23, le_trans hle12 hle23⟩

/-- C4 counterexample: _sort_merged_data places the row whose area of
delivery is empty BEFORE the row with the non-empty area Zzzz, because the
empty area is keyed as the literal ZZZ, which compares below ZZZZ — so it
is not the case that every empty-area row sorts after every row with a
non-empty area. -/
theorem sort_empty_area_not_last_cx :
    (⟨"1", "", "5", "a"⟩ : Multi.Row).area_of_delivery = "" ∧
    (⟨"2", "Zzzz", "5", "b"⟩ : Multi.Row).area_of_delivery ≠ "" ∧
    Multi.sort_merged_data [⟨"2", "Zzzz", "5", "b"⟩, ⟨"1", "", "5", "a"⟩]
      = [⟨"1", "", "5", "a"⟩, ⟨"2", "Zzzz", "5", "b"⟩] := by
  exact ⟨rfl, by decide, by decide⟩

/-- C4 amended: _sort_merged_data returns a permutation of its input sorted
by the key pair (stripped area of delivery with the empty area replaced by
the literal ZZZ, uppercased, compared ascending as Python strings; then
normalized budget descending, null or unparseable budgets taken as zero).
Since the empty area is keyed as ZZZ, empty-area rows sort after rows whose
uppercased area compares below ZZZ but before rows comparing above it, not
after every non-empty area. -/
theorem sort_merged_data_sorted (rows : List Multi.Row) :
    (Multi.sort_merged_data rows).Sorted Multi.rowLe ∧
    (Multi.sort_merged_data rows).Perm rows :=
  ⟨@List.sorted_insertionSort _ Multi.rowLe _ ⟨rowLe_total⟩ ⟨rowLe_trans⟩ rows,
   List.perm_insertionSort _ _⟩

/-- Witness for C4 amended at a concrete row list. -/
theorem sort_merged_data_sorted_witness :
    (Multi.sort_merged_data [⟨"2", "Zzzz", "5", "b"⟩, ⟨"1", "", "5", "a"⟩]).Sorted
        Multi.rowLe ∧
    (Multi.sort_merged_data [⟨"2", "Zzzz", "5", "b"⟩, ⟨"1", "", "5", "a"⟩]).Perm
      [⟨"2", "Zzzz", "5", "b"⟩, ⟨"1", "", "5", "a"⟩] :=
  sort_merged_data_sorted [⟨"2", "Zzzz", "5", "b"⟩, ⟨"1", "", "5", "a"⟩]

/-
  Classification-loop lemmas for C6.
-/

theorem classifyRestGo_some (phoneO : Option (List Char)) (p : List Char) :
    ∀ (lines : List (List Char)) (addr : List (List Char)),
      Scraper.classifyRestGo phoneO (some p) addr lines
        = (some p, addr ++ lines.filter (fun ln => !Scraper.skipPhone phoneO ln)) := by
  intro lines
  induction lines with
  | nil => intro addr; simp [Scraper.classifyRestGo]
  | cons ln rest ih =>
    intro addr
    simp only [Scraper.classifyRestGo]
    rcases hskip : Scraper.skipPhone phoneO ln with _ | _
    · simp only [Bool.false_eq_true, if_false, Option.isNone_some, Bool.false_and,
        List.filter_cons, hskip, Bool.not_false, if_true]
      rw [ih (addr ++ [ln])]
      simp
    · simp only [if_true, List.filter_cons, hskip, Bool.not_true,
        Bool.false_eq_true, if_false]
      exact ih addr

theorem classifyRestGo_addr_cons (phoneO : Option (List Char)) :
    ∀ (lines : List (List Char)) (a : List Char) (addr : List (List Char)),
      Scraper.classifyRestGo phoneO none (a :: addr) lines
        = (none, (a :: addr) ++ lines.filter (fun ln => !Scraper.skipPhone phoneO ln)) := by
  intro lines
  induction lines with
  | nil => intro a addr; simp [Scraper.classifyRestGo]
  | cons ln rest ih =>
    intro a addr
    simp only [Scraper.classifyRestGo]
    rcases hskip : Scraper.skipPhone phoneO ln with _ | _
    · simp only [Bool.false_eq_true, if_false, Option.isNone_none, Bool.true_and,
        List.isEmpty_cons, Bool.false_and, List.filter_cons, hskip, Bool.not_false,
        if_true]
      have hr := ih a (addr ++ [ln])
      rw [List.cons_append] at hr ⊢
      rw [hr]
      simp
    · simp only [if_true, List.filter_cons, hskip, Bool.not_true,
        Bool.false_eq_true, if_false]
      exact ih a addr

/-- C6 counterexample: in the blob below the first line is a person name,
the second a non-matching line, the third matches the position keywords;
the claim predicts position BAC Chairperson, but the code leaves the
position null and accumulates the matching line into the address, because
the name branch only accepts a position while the address accumulator is
still empty. -/
theorem contact_position_after_address_cx :
    Scraper.is_position_title "BAC Chairperson" = true ∧
    Scraper.parse_contact_blob "Juan Dela Cruz\nSomewhere Lane\nBAC Chairperson"
      = ⟨some "Juan Dela Cruz", none, some "Somewhere Lane, BAC Chairperson",
         none, none⟩ := by
  exact ⟨by decide, by decide⟩

/-- C6 amended: in the name branch of the contact-blob classifier, a
remaining line becomes the position only when it is the first line not
skipped as the extracted phone line AND it passes the position-title test;
once any line has entered the address, every later line — even one matching
the position keywords — accumulates into the address, in order. -/
theorem classify_rest_position_rule (phoneO : Option (List Char))
    (lines : List (List Char)) :
    Scraper.classifyRest phoneO lines =
      match lines.filter (fun ln => !Scraper.skipPhone phoneO ln) with
      | [] => (none, [])
      | l :: ls =>
        if Scraper.is_position_title (String.mk l) then (some l, ls)
        else (none, l :: ls) := by
  induction lines with
  | nil => simp [Scraper.classifyRest, Scraper.classifyRestGo]
  | cons ln rest ih =>
    simp only [Scraper.classifyRest, Scraper.classifyRestGo] at ih ⊢
    rcases hskip : Scraper.skipPhone phoneO ln with _ | _
    · simp only [Bool.false_eq_true, if_false, Option.isNone_none, Bool.true_and,
        List.isEmpty_nil, List.filter_cons, hskip, Bool.not_false, if_true]
      rcases hpos : Scraper.is_position_title (String.mk ln) with _ | _
      · simp only [Bool.false_eq_true, if_false]
        rw [show ([] : List (List Char)) ++ [ln] = [ln] from rfl]
        rw [classifyRestGo_addr_cons phoneO rest ln []]
        simp [hpos]
      · simp only [if_true]
        rw [classifyRestGo_some phoneO ln rest []]
        simp [hpos]
    · simp only [if_true, List.filter_cons, hskip, Bool.not_true,
        Bool.false_eq_true, if_false]
      exact ih

/-- Witness for C6 amended: with no phone and a non-matching line ahead of
a keyword-matching line, the loop yields no position and sends both lines
to the address. -/
theorem classify_rest_position_rule_witness :
    Scraper.classifyRest none ["Somewhere Lane".data, "BAC Chairperson".data]
      = (none, ["Somewhere Lane".data, "BAC Chairperson".data]) := by
  rw [classify_rest_position_rule none ["Somewhere Lane".data, "BAC Chairperson".data]]
  decide

/-
  Suffix-closure lemmas for the regex combinators, used by C7.
-/

theorem suffClosed_reLit (pat : List Char) : SuffClosed (reLit pat) := by
  intro cs r hr
  unfold reLit at hr
  split at hr
  · rw [List.mem_singleton] at hr
    subst hr
    exact List.drop_suffix _ _
  · cases hr

theorem suffClosed_reLitCI (pat : List Char) : SuffClosed (reLitCI pat) := by
  intro cs r hr
  unfold reLitCI at hr
  split at hr
  · rw [List.mem_singleton] at hr
    subst hr
    exact List.drop_suffix _ _
  · cases hr

theorem suffClosed_reCls (p : Char → Bool) (lo : Nat) (hi : Option Nat) :
    SuffClosed (reCls p lo hi) := by
  intro cs r hr
  simp only [reCls] at hr
  split at hr
  · cases hr
  · obtain ⟨i, _, hi2⟩ := List.mem_map.mp hr
    subst hi2
    exact List.drop_suffix _ _

theorem suffClosed_reSeq {m1 m2 : Matcher} (h1 : SuffClosed m1)
    (h2 : SuffClosed m2) : SuffClosed (reSeq m1 m2) := by
  intro cs r hr
  unfold reSeq at hr
  obtain ⟨r1, hr1, hr2⟩ := List.mem_flatMap.mp hr
  exact (h2 r1 r hr2).trans (h1 cs r1 hr1)

theorem suffClosed_reAlt {m1 m2 : Matcher} (h1 : SuffClosed m1)
    (h2 : SuffClosed m2) : SuffClosed (reAlt m1 m2) := by
  intro cs r hr
  unfold reAlt at hr
  rcases List.mem_append.mp hr with hr | hr
  · exact h1 cs r hr
  · exact h2 cs r hr

theorem suffClosed_reOpt {m : Matcher} (h : SuffClosed m) : SuffClosed (reOpt m) := by
  intro cs r hr
  unfold reOpt at hr
  rcases List.mem_append.mp hr with hr | hr
  · exact h cs r hr
  · rw [List.mem_singleton] at hr
    subst hr
    exact List.suffix_refl _

theorem suffClosed_chOpt (p : Char → Bool) : SuffClosed (chOpt p) :=
  suffClosed_reCls p 0 (some 1)

theorem suffClosed_currencyNumRe : SuffClosed DataCleaner.currencyNumRe :=
  suffClosed_reSeq (suffClosed_reCls _ _ _)
    (suffClosed_reSeq (suffClosed_reOpt (suffClosed_reLit _)) (suffClosed_reCls _ _ _))

theorem suffClosed_currencyMarkRe : SuffClosed DataCleaner.currencyMarkRe :=
  suffClosed_reSeq (suffClosed_reAlt (suffClosed_reLit _) (suffClosed_reLit _))
    (suffClosed_reSeq (suffClosed_reCls _ _ _) suffClosed_currencyNumRe)

theorem matchHere_append {m : Matcher} (hm : SuffClosed m) {cs mt r : List Char}
    (h : matchHere m cs = some (mt, r)) : mt ++ r = cs := by
  unfold matchHere at h
  cases hcand : m cs with
  | nil => rw [hcand] at h; cases h
  | cons r0 rest =>
    rw [hcand] at h
    have hmt : mt = cs.take (cs.length - r0.length) := by
      injection h with h1
      exact (congrArg Prod.fst h1).symm
    have hr : r = r0 := by
      injection h with h1
      exact (congrArg Prod.snd h1).symm
    obtain ⟨t, ht⟩ := hm cs r0 (by rw [hcand]; exact List.mem_cons_self r0 rest)
    rw [hmt, hr, ← ht]
    have hlen : t.length = (t ++ r0).length - r0.length := by simp
    rw [List.take_left' hlen]

theorem reSearch_append {m : Matcher} (hm : SuffClosed m) :
    ∀ {cs pre mt r : List Char},
      reSearch m cs = some (pre, mt, r) → pre ++ (mt ++ r) = cs := by
  intro cs
  induction cs with
  | nil =>
    intro pre mt r h
    simp only [reSearch] at h
    cases hmh : matchHere m [] with
    | none => rw [hmh] at h; cases h
    | some p =>
      obtain ⟨mt0, r0⟩ := p
      rw [hmh] at h
      injection h with h1
      have hpre : pre = [] := (congrArg (fun x => x.1) h1).symm
      have hmt : mt = mt0 := by
        have := congrArg (fun x => x.2.1) h1
        exact this.symm
      have hr : r = r0 := by
        have := congrArg (fun x => x.2.2) h1
        exact this.symm
      subst hpre hmt hr
      simpa using matchHere_append hm hmh
  | cons c cs ih =>
    intro pre mt r h
    simp only [reSearch] at h
    cases hmh : matchHere m (c :: cs) with
    | some p =>
      obtain ⟨mt0, r0⟩ := p
      rw [hmh] at h
      injection h with h1
      have hpre : pre = [] := (congrArg (fun x => x.1) h1).symm
      have hmt : mt = mt0 := (congrArg (fun x => x.2.1) h1).symm
      have hr : r = r0 := (congrArg (fun x => x.2.2) h1).symm
      subst hpre hmt hr
      simpa using matchHere_append hm hmh
    | none =>
      rw [hmh] at h
      cases hms : reSearch m cs with
      | none => rw [hms] at h; cases h
      | some q =>
        obtain ⟨p2, mt2, r2⟩ := q
        rw [hms] at h
        injection h with h1
        have hpre : pre = c :: p2 := (congrArg (fun x => x.1) h1).symm
        have hmt : mt = mt2 := (congrArg (fun x => x.2.1) h1).symm
        have hr : r = r2 := (congrArg (fun x => x.2.2) h1).symm
        subst hpre hmt hr
        have := ih hms
        simpa using this

theorem mem_of_reSearch_matched {m : Matcher} (hm : SuffClosed m)
    {cs pre mt r : List Char} (h : reSearch m cs = some (pre, mt, r))
    {c : Char} (hc : c ∈ mt) : c ∈ cs := by
  have happ := reSearch_append hm h
  rw [← happ]
  exact List.mem_append.mpr (Or.inr (List.mem_append.mpr (Or.inl hc)))

theorem parseFloat_none_of_no_digit : ∀ cs : List Char,
    (∀ c ∈ cs, c.isDigit = false) → parseFloat cs = none := by
  intro cs h
  have hip : cs.takeWhile Char.isDigit = [] := by
    cases cs with
    | nil => rfl
    | cons c cs' =>
      simp [List.takeWhile_cons, h c (List.mem_cons_self c cs')]
  have hrest : cs.dropWhile Char.isDigit = cs := dropWhile_none h
  unfold parseFloat
  rw [hip, hrest]
  cases cs with
  | nil => rfl
  | cons c cs' =>
    simp only [List.isEmpty_cons, Bool.false_eq_true, if_false]
    by_cases hdot : c = '.'
    · subst hdot
      simp only [List.head?_cons, Option.some.injEq, if_pos rfl, List.tail_cons]
      cases cs' with
      | nil => simp
      | cons d cs'' =>
        have hd : d.isDigit = false := h d (by simp)
        simp [List.all_cons, hd]
    · have hne : ¬((c :: cs').head? = some '.') := by simp [hdot]
      rw [if_neg hne]

theorem markGroup_subset {mt : List Char} {c : Char}
    (hc : c ∈ DataCleaner.markGroup mt) : c ∈ mt := by
  unfold DataCleaner.markGroup at hc
  have h1 := (List.dropWhile_suffix isPyWs).subset hc
  split at h1
  · exact List.mem_of_mem_drop h1
  · exact List.mem_of_mem_drop h1

/-- C7: clean_currency returns 55200 for the peso-sign input, 1000 for the
PHP-marker input, none for the empty string; a bare numeric string with no
marker is accepted; and an input containing no digit at all yields none. -/
theorem clean_currency_spec :
    DataCleaner.clean_currency "₱55,200.00" = some (55200 : ℚ) ∧
    DataCleaner.clean_currency "PHP 1,000" = some (1000 : ℚ) ∧
    DataCleaner.clean_currency "" = none ∧
    DataCleaner.clean_currency "55200" = some (55200 : ℚ) ∧
    (∀ s : String, (∀ c ∈ s.data, c.isDigit = false) →
      DataCleaner.clean_currency s = none) := by
  refine ⟨by decide, by decide, rfl, by decide, ?_⟩
  intro s h
  unfold DataCleaner.clean_currency
  by_cases he : s.data.isEmpty = true
  · rw [if_pos he]
  · rw [if_neg he]
    cases hm : reSearch DataCleaner.currencyMarkRe s.data with
    | some res =>
      obtain ⟨pre, mt, r⟩ := res
      apply parseFloat_none_of_no_digit
      intro c hcf
      have hcg : c ∈ DataCleaner.markGroup mt := (List.mem_filter.mp hcf).1
      have hcs : c ∈ s.data :=
        mem_of_reSearch_matched suffClosed_currencyMarkRe hm (markGroup_subset hcg)
      exact h c hcs
    | none =>
      cases hm2 : reSearch DataCleaner.currencyNumRe s.data with
      | some res =>
        obtain ⟨pre, mt, r⟩ := res
        apply parseFloat_none_of_no_digit
        intro c hcf
        have hcs : c ∈ s.data :=
          mem_of_reSearch_matched suffClosed_currencyNumRe hm2 (List.mem_filter.mp hcf).1
        exact h c hcs
      | none => rfl

/-- Witness for C7: a digit-free input maps to none. -/
theorem clean_currency_spec_witness :
    DataCleaner.clean_currency "no amount here" = none :=
  clean_currency_spec.2.2.2.2 "no amount here" (by decide)

/-
  Lemmas for the slash-date disambiguation (C5).
-/

theorem isPyWs_false_of_digit {c : Char} (h : c.isDigit = true) :
    isPyWs c = false := by
  by_contra hne
  have hw : isPyWs c = true := by
    cases hx : isPyWs c with
    | true => rfl
    | false => exact absurd hx hne
  unfold isPyWs at hw
  simp only [Bool.or_eq_true, decide_eq_true_eq] at hw
  rcases hw with ((((h1 | h1) | h1) | h1) | h1) | h1 <;>
    (subst h1; exact absurd h (by decide))

theorem reLit_colon_nil {r2 : List Char} (h : (':' : Char) ∉ r2) :
    reLit [':'] r2 = [] := by
  unfold reLit
  cases r2 with
  | nil => rfl
  | cons c r =>
    have hc : ¬((':' : Char) == c) = true := by
      simp only [beq_iff_eq]
      intro hce
      exact h (hce ▸ List.mem_cons_self c r)
    rw [if_neg]
    simp only [List.isPrefixOf, Bool.and_eq_true]
    intro hp
    exact hc hp.1

theorem timeRe_nil_of_no_colon {cs : List Char} (h : (':' : Char) ∉ cs) :
    DataCleaner.timeRe cs = [] := by
  unfold DataCleaner.timeRe
  show reSeq _ _ cs = []
  unfold reSeq
  apply flatMap_nil_of
  intro r1 hr1
  have hs1 : r1.IsSuffix cs := suffClosed_reCls _ _ _ cs r1 hr1
  apply flatMap_nil_of
  intro r2 hr2
  have hs2 : r2.IsSuffix r1 := suffClosed_reCls _ _ _ r1 r2 hr2
  have hcol : (':' : Char) ∉ r2 := fun hc => h ((hs2.trans hs1).subset hc)
  show (reLit [':'] r2).flatMap _ = []
  rw [reLit_colon_nil hcol]
  rfl

theorem reSearch_timeRe_none : ∀ cs : List Char, (':' : Char) ∉ cs →
    reSearch DataCleaner.timeRe cs = none := by
  intro cs
  induction cs with
  | nil =>
    intro h
    simp only [reSearch, matchHere, timeRe_nil_of_no_colon h]
  | cons c cs ih =>
    intro h
    have hc : (':' : Char) ∉ cs := fun hx => h (List.mem_cons_of_mem c hx)
    simp only [reSearch, matchHere, timeRe_nil_of_no_colon h, ih hc]

theorem reSubAll_timeRe_id {cs : List Char} (h : (':' : Char) ∉ cs) :
    reSubAll DataCleaner.timeRe cs = cs := by
  unfold reSubAll
  simp only [reSubAllGo, reSearch_timeRe_none cs h]

/-- C5: for every date string of the slash form A/B/YYYY (digit groups of
width one or two, one or two, and exactly four), clean_date computes the
spec reading: day-month-year when A exceeds twelve, month-day-year when B
exceeds twelve, otherwise day-month-year by default with a month-day-year
retry only when the default reading is an invalid calendar date; and on the
quoted ambiguous example 05/06/2024 it returns 2024-06-05. -/
theorem clean_date_slash_disambiguation :
    (∀ g1 g2 g3 : List Char,
      (∀ c ∈ g1, c.isDigit = true) → 1 ≤ g1.length → g1.length ≤ 2 →
      (∀ c ∈ g2, c.isDigit = true) → 1 ≤ g2.length → g2.length ≤ 2 →
      (∀ c ∈ g3, c.isDigit = true) → g3.length = 4 →
      DataCleaner.clean_date (String.mk (g1 ++ '/' :: (g2 ++ '/' :: g3)))
        = (DataCleaner.specSlashRead (natOfDigits g1) (natOfDigits g2) g3).map
            String.mk) ∧
    DataCleaner.clean_date "05/06/2024" = some "2024-06-05" := by
  constructor
  · intro g1 g2 g3 hd1 hl1 hu1 hd2 hl2 hu2 hd3 hl3
    have hall : ∀ c ∈ g1 ++ '/' :: (g2 ++ '/' :: g3), c.isDigit = true ∨ c = '/' := by
      intro c hc
      rcases List.mem_append.mp hc with h | h
      · exact Or.inl (hd1 c h)
      · rcases List.mem_cons.mp h with h | h
        · exact Or.inr h
        · rcases List.mem_append.mp h with h | h
          · exact Or.inl (hd2 c h)
          · rcases List.mem_cons.mp h with h | h
            · exact Or.inr h
            · exact Or.inl (hd3 c h)
    have hws : ∀ c ∈ g1 ++ '/' :: (g2 ++ '/' :: g3), isPyWs c = false := by
      intro c hc
      rcases hall c hc with h | h
      · exact isPyWs_false_of_digit h
      · subst h; decide
    have hcolon : (':' : Char) ∉ g1 ++ '/' :: (g2 ++ '/' :: g3) := by
      intro hc
      rcases hall ':' hc with h | h
      · exact absurd h (by decide)
      · exact absurd h (by decide)
    have hstrip : pyStrip (g1 ++ '/' :: (g2 ++ '/' :: g3))
        = g1 ++ '/' :: (g2 ++ '/' :: g3) := pyStrip_eq_self hws
    have hsub : reSubAll DataCleaner.timeRe (g1 ++ '/' :: (g2 ++ '/' :: g3))
        = g1 ++ '/' :: (g2 ++ '/' :: g3) := reSubAll_timeRe_id hcolon
    have hslash : Char.isDigit '/' = false := by decide
    have hrun1 : DataCleaner.digitRun (g1 ++ '/' :: (g2 ++ '/' :: g3))
        = (g1, '/' :: (g2 ++ '/' :: g3)) := by
      unfold DataCleaner.digitRun
      rw [takeWhile_all_append _ hd1 hslash, dropWhile_all_append _ hd1 hslash]
    have hrun2 : DataCleaner.digitRun (g2 ++ '/' :: g3) = (g2, '/' :: g3) := by
      unfold DataCleaner.digitRun
      rw [takeWhile_all_append _ hd2 hslash, dropWhile_all_append _ hd2 hslash]
    have hrun3 : DataCleaner.digitRun g3 = (g3, []) := by
      unfold DataCleaner.digitRun
      rw [List.takeWhile_eq_self_iff.mpr hd3, List.dropWhile_eq_nil_iff.mpr hd3]
    have hb1 : (decide (g1.length < 1) || decide (2 < g1.length)) = false := by
      simp only [Bool.or_eq_false_iff, decide_eq_false_iff_not]
      omega
    have hb2 : (decide (g2.length < 1) || decide (2 < g2.length)) = false := by
      simp only [Bool.or_eq_false_iff, decide_eq_false_iff_not]
      omega
    have hns : ¬(('/' : Char) = '-') := by decide
    have hp1 : DataCleaner.parseYmd (g1 ++ '/' :: (g2 ++ '/' :: g3)) = none := by
      simp only [DataCleaner.parseYmd, hrun1]
      rw [if_neg (by omega : ¬ g1.length = 4)]
    have hp2 : DataCleaner.parse3 '-' (fun n => n = 4)
        (g1 ++ '/' :: (g2 ++ '/' :: g3)) = none := by
      simp only [DataCleaner.parse3, hrun1, hb1, Bool.false_eq_true, if_false]
      rw [if_neg hns]
    have hp3 : DataCleaner.parse3 '/' (fun n => n = 2)
        (g1 ++ '/' :: (g2 ++ '/' :: g3)) = none := by
      simp only [DataCleaner.parse3, hrun1, hb1, Bool.false_eq_true, if_false,
        if_true, hrun2, hb2, hrun3]
      rw [hl3]
      rfl
    have hp4 : DataCleaner.parse3 '/' (fun n => n = 4)
        (g1 ++ '/' :: (g2 ++ '/' :: g3))
        = some (g1, g2, g3) := by
      simp only [DataCleaner.parse3, hrun1, hb1, Bool.false_eq_true, if_false,
        if_true, hrun2, hb2, hrun3]
      rw [hl3]
      rfl
    have hcore : DataCleaner.cleanDateCore (g1 ++ '/' :: (g2 ++ '/' :: g3))
        = DataCleaner.specSlashRead (natOfDigits g1) (natOfDigits g2) g3 := by
      simp only [DataCleaner.cleanDateCore, hstrip, hsub, hp1, hp2, hp3, hp4]
      rfl
    have hne : (String.mk (g1 ++ '/' :: (g2 ++ '/' :: g3))).data.isEmpty = false := by
      cases g1 with
      | nil => simp at hl1
      | cons a g1' => rfl
    unfold DataCleaner.clean_date
    rw [hne]
    simp only [Bool.false_eq_true, if_false]
    rw [hcore]
  · decide

/-- Witness for C5 at concrete groups: 13/06/2024 is read day-month-year
because the first field exceeds twelve. -/
theorem clean_date_slash_disambiguation_witness :
    DataCleaner.clean_date (String.mk ("13".data ++ '/' :: ("06".data ++ '/' :: "2024".data)))
      = (DataCleaner.specSlashRead (natOfDigits "13".data) (natOfDigits "06".data)
          "2024".data).map String.mk :=
  clean_date_slash_disambiguation.1 "13".data "06".data "2024".data
    (by decide) (by decide) (by decide) (by decide) (by decide) (by decide)
    (by decide) (by decide)

/-- C8: the worked contact example of the spec — the classifier returns
position BAC Chairperson, the street address, the email, a phone value
containing 0917-123-4567, and a null name. -/
theorem parse_contact_blob_example :
    Scraper.parse_contact_blob
        "BAC Chairperson\n123 Rizal St, Quezon City\njuan@example.com\n0917-123-4567"
      = ⟨none, some "BAC Chairperson", some "123 Rizal St, Quezon City",
         some "juan@example.com", some "0917-123-4567"⟩ ∧
    containsSub "0917-123-4567".data
      ((Scraper.parse_contact_blob
        "BAC Chairperson\n123 Rizal St, Quezon City\njuan@example.com\n0917-123-4567").phone.getD
          "").data = true := by
  exact ⟨by decide, by decide⟩

end PhilGEPS
